import Mathlib

/-!
Verification of the opensafely/job-runner natural-language specification
against a shallow embedding of the repository's code.

The embedding covers:
* `jobrunner/create_or_update_jobs.py` — request validation, recursive DAG
  expansion, failed-request projection;
* `jobrunner/manage_jobs.py` — manifest bookkeeping, `finalise_job`
  write ordering and error classification, environment-variable redaction;
* `jobrunner/docker.py` — volume glob matching;
* `jobrunner/database.py` — field encoding and decoding;
* `v2/jobrunner/run.py` — the run-loop state machine.

External collaborators (git, the container runtime, the filesystem, the
standard `json` codec, wall-clock time) are modelled as explicit parameters,
following the specification's contracts for them.
-/

namespace JR

/-- Job lifecycle states.  Modelled from the spec: the `State` enum lives in
`jobrunner/models.py`, which is not part of the provided sources; the spec
gives the state set and says "Enum-typed fields persist as their tag value",
so distinct string tags are used. -/
inductive State where
  | pending
  | running
  | failed
  | succeeded
deriving DecidableEq, Repr

/-- Modelled from the spec: the persisted tag value of each state
(`jobrunner/models.py` is not in the sources; tags are distinct strings). -/
def State.value : State → String
  | .pending => "pending"
  | .running => "running"
  | .failed => "failed"
  | .succeeded => "succeeded"

/-- Modelled from the spec: partial inverse of `State.value`, as built by the
Python `Enum` constructor `State(tag)`. -/
def State.ofValue (s : String) : Option State :=
  if s == "pending" then some .pending
  else if s == "running" then some .running
  else if s == "failed" then some .failed
  else if s == "succeeded" then some .succeeded
  else none

theorem State.ofValue_value (st : State) : State.ofValue st.value = some st := by
  cases st <;> rfl

/-- `output_spec`: privacy level → (output name → glob pattern), with Python
dict insertion order kept as list order. -/
def OutputSpec := List (String × List (String × String))

instance : DecidableEq OutputSpec := by
  unfold OutputSpec; infer_instance

/-! ### Environment-variable redaction (`manage_jobs.redact_environment_variables`) -/

/-- The safelist from `manage_jobs.py` (`SAFE_ENVIRONMENT_VARIABLES`). -/
def SAFE_ENVIRONMENT_VARIABLES : List String :=
  ["PATH", "PYTHON_VERSION", "DEBIAN_FRONTEND", "DEBCONF_NONINTERACTIVE_SEEN",
   "UBUNTU_VERSION", "PYENV_SHELL", "PYENV_VERSION", "PYTHONUNBUFFERED"]

/-- Container metadata as returned by `docker container inspect`, reduced to
the fields the code reads.  `Config.Env` entries are modelled as
`(key, value)` pairs, corresponding to Python's `line.split("=", 1)`. -/
structure ContainerMetadata where
  image : String
  exit_code : Int
  env : List (String × String)
deriving DecidableEq, Repr

/-- `manage_jobs.redact_environment_variables`: replace the value of every
environment variable whose key is not on the safelist with
`xxxx-REDACTED-xxxx`. -/
def redact_environment_variables (cm : ContainerMetadata) : ContainerMetadata :=
  { cm with
    env := cm.env.map (fun kv =>
      if SAFE_ENVIRONMENT_VARIABLES.contains kv.1 then (kv.1, kv.2)
      else (kv.1, "xxxx-REDACTED-xxxx")) }

/-! ### Store field encoding (`database.encode_field_values` / `decode_field_values`) -/

/-- JSON values, the image of the standard library `json` codec on the
composite field values the store persists. -/
inductive Json where
  | null
  | bool (b : Bool)
  | num (n : Int)
  | str (s : String)
  | arr (elems : List Json)
  | obj (entries : List (String × Json))

/-- Python values that can sit in a dataclass field of the row types the
store handles: `None`, strings, ints, bools, lists and dicts of
JSON-serialisable data, and `State` enum members. -/
inductive PyValue where
  | none
  | bool (b : Bool)
  | str (s : String)
  | int (n : Int)
  | jlist (elems : List Json)
  | jdict (entries : List (String × Json))
  | enum (st : State)

/-- The `field.type` annotation consulted by `encode_field_values` and
`decode_field_values`: `list`, `dict`, a `State`-style `Enum` subclass, or a
plain scalar type. -/
inductive FieldType where
  | tlist
  | tdict
  | tenum
  | tstr
  | tint
deriving DecidableEq, Repr

/-- An SQLite cell.  `jsonText j` models the string `json.dumps(j)`: the
standard `json` codec (external to this repository) is injective on these
values and `json.loads` inverts it, and SQLite returns text cells verbatim,
so the serialised text is represented by its parse tree. -/
inductive DbValue where
  | null
  | intv (n : Int)
  | text (s : String)
  | jsonText (j : Json)

/-- `json.dumps` on a Python value, up to the `jsonText` representation;
`none` models the `TypeError` raised on non-serialisable values. -/
def pyToJson : PyValue → Option Json
  | .none => some .null
  | .bool b => some (.bool b)
  | .str s => some (.str s)
  | .int n => some (.num n)
  | .jlist l => some (.arr l)
  | .jdict l => some (.obj l)
  | .enum _ => Option.none

/-- `json.loads` output viewed as a Python value. -/
def jsonToPy : Json → PyValue
  | .null => .none
  | .bool b => .bool b
  | .num n => .int n
  | .str s => .str s
  | .arr l => .jlist l
  | .obj l => .jdict l

/-- One field of `database.encode_field_values`: dicts and lists are JSON
encoded, enums are encoded as their tag value, `None` and plain scalars pass
through; `none` models a Python exception (unserialisable value or attribute
error). -/
def encode_field_value : FieldType → PyValue → Option DbValue
  | .tlist, .none => some .null
  | .tlist, v => (pyToJson v).map DbValue.jsonText
  | .tdict, .none => some .null
  | .tdict, v => (pyToJson v).map DbValue.jsonText
  | .tenum, .none => some .null
  | .tenum, .enum st => some (.text st.value)
  | .tenum, _ => Option.none
  | .tstr, .none => some .null
  | .tstr, .str s => some (.text s)
  | .tstr, _ => Option.none
  | .tint, .none => some .null
  | .tint, .int n => some (.intv n)
  | .tint, .bool b => some (.intv (if b then 1 else 0))
  | .tint, _ => Option.none

/-- One field of `database.decode_field_values`: dicts and lists are decoded
from JSON, enums are rebuilt from their tag value via the enum constructor
(`none` models the `ValueError` on an unknown tag), `None` and plain scalars
pass through. -/
def decode_field_value : FieldType → DbValue → Option PyValue
  | .tlist, .null => some .none
  | .tlist, .jsonText j => some (jsonToPy j)
  | .tlist, _ => Option.none
  | .tdict, .null => some .none
  | .tdict, .jsonText j => some (jsonToPy j)
  | .tdict, _ => Option.none
  | .tenum, .null => some .none
  | .tenum, .text s => (State.ofValue s).map PyValue.enum
  | .tenum, _ => Option.none
  | .tstr, .null => some .none
  | .tstr, .text s => some (.str s)
  | .tstr, _ => Option.none
  | .tint, .null => some .none
  | .tint, .intv n => some (.int n)
  | .tint, _ => Option.none

/-- `database.encode_field_values`: encode each field of a row in order. -/
def encode_field_values : List FieldType → List PyValue → Option (List DbValue)
  | [], [] => some []
  | ft :: fts, v :: vs => do
    let c ← encode_field_value ft v
    let cs ← encode_field_values fts vs
    pure (c :: cs)
  | _, _ => Option.none

/-- `database.decode_field_values`: decode each cell of a row in order. -/
def decode_field_values : List FieldType → List DbValue → Option (List PyValue)
  | [], [] => some []
  | ft :: fts, c :: cs => do
    let v ← decode_field_value ft c
    let vs ← decode_field_values fts cs
    pure (v :: vs)
  | _, _ => Option.none

/-- `database.insert`: append the encoded field values as a new row. -/
def insert_row (fts : List FieldType) (tbl : List (List DbValue))
    (vs : List PyValue) : Option (List (List DbValue)) :=
  (encode_field_values fts vs).map (fun row => tbl ++ [row])

/-- `database.find_where` with an always-true filter: decode every row. -/
def find_where_all (fts : List FieldType) :
    List (List DbValue) → Option (List (List PyValue))
  | [] => some []
  | row :: rest => do
    let v ← decode_field_values fts row
    let vs ← find_where_all fts rest
    pure (v :: vs)

/-- The typing discipline of the claim: a field annotated `list`, `dict` or
an `Enum` subclass holds a value of that type or `None`; plain fields hold a
matching scalar or `None`. -/
def type_ok : FieldType → PyValue → Bool
  | _, .none => true
  | .tlist, .jlist _ => true
  | .tdict, .jdict _ => true
  | .tenum, .enum _ => true
  | .tstr, .str _ => true
  | .tint, .int _ => true
  | _, _ => false

theorem encode_decode_field (ft : FieldType) (v : PyValue)
    (h : type_ok ft v = true) :
    ∃ c, encode_field_value ft v = some c ∧ decode_field_value ft c = some v := by
  cases ft <;> cases v <;> simp_all [type_ok, encode_field_value,
    decode_field_value, pyToJson, jsonToPy, State.ofValue_value]

theorem encode_decode_row (fts : List FieldType) (vs : List PyValue)
    (h : List.Forall₂ (fun ft v => type_ok ft v = true) fts vs) :
    ∃ cells, encode_field_values fts vs = some cells ∧
      decode_field_values fts cells = some vs := by
  induction h with
  | nil => exact ⟨[], rfl, rfl⟩
  | @cons ft v fts vs hfv _ ih =>
    obtain ⟨c, hc, hdc⟩ := encode_decode_field ft v hfv
    obtain ⟨cs, hcs, hdcs⟩ := ih
    refine ⟨c :: cs, ?_, ?_⟩
    · simp [encode_field_values, hc, hcs]
    · simp [decode_field_values, hdc, hdcs]

theorem find_where_all_append (fts : List FieldType) (tbl : List (List DbValue))
    (rows : List (List PyValue)) (row : List DbValue) (v : List PyValue)
    (h1 : find_where_all fts tbl = some rows)
    (h2 : decode_field_values fts row = some v) :
    find_where_all fts (tbl ++ [row]) = some (rows ++ [v]) := by
  induction tbl generalizing rows with
  | nil =>
    simp only [find_where_all, Option.some.injEq] at h1
    subst h1
    simp [find_where_all, h2]
  | cons r rest ih =>
    simp only [List.cons_append]
    unfold find_where_all at h1 ⊢
    cases hd : decode_field_values fts r with
    | none => rw [hd] at h1; simp at h1
    | some v' =>
      rw [hd] at h1
      cases hf : find_where_all fts rest with
      | none => rw [hf] at h1; simp at h1
      | some vs' =>
        rw [hf] at h1
        simp only [Option.bind_eq_bind, Option.some_bind, Option.pure_def,
          Option.some.injEq] at h1
        subst h1
        rw [ih vs' hf]
        simp

/-! ### Workspace manifest (`manage_jobs.py`) -/

/-- An entry of the manifest's `files` mapping
(`{created_by_action, privacy_level}`). -/
structure FileDetails where
  created_by_action : String
  privacy_level : String
deriving DecidableEq, Repr

/-- An entry of the manifest's `actions` mapping, reduced to the fields the
embedded code reads (`status`; the remaining keys are opaque here). -/
structure ActionEntry where
  status : String
deriving DecidableEq, Repr

/-- `metadata/manifest.json`, with Python dict order kept as list order. -/
structure Manifest where
  files : List (String × FileDetails)
  actions : List (String × ActionEntry)
deriving DecidableEq, Repr

/-- First-match association-list lookup (Python dict indexing). -/
def alist_get {α : Type} (l : List (String × α)) (k : String) : Option α :=
  (l.find? (fun p => p.1 == k)).map Prod.snd

/-- The filesystem state of one high-privacy workspace: the manifest file
(`none` when absent) and which relative paths exist on disk. -/
structure WorkspaceFS where
  manifest : Option Manifest
  on_disk : String → Bool

/-- `manage_jobs.read_manifest_file`: an absent manifest file reads as the
empty manifest. -/
def read_manifest_file (m : Option Manifest) : Manifest :=
  m.getD ⟨[], []⟩

/-- The `JobError` subclasses raised by `list_outputs_from_action`. -/
inductive ListOutputsError where
  | actionNotRun
  | actionFailed
  | missingOutput (filename : String)
deriving DecidableEq, Repr

/-- The output-collection loop at the end of
`manage_jobs.list_outputs_from_action`: files attributed to the action, with
a `MissingOutputError` for attributed files absent from disk unless errors
are ignored. -/
def collect_output_files (fs : WorkspaceFS) (action : String)
    (ignore_errors : Bool) :
    List (String × FileDetails) → Except ListOutputsError (List String)
  | [] => .ok []
  | (filename, details) :: rest =>
    if details.created_by_action == action then
      if !ignore_errors && !(fs.on_disk filename) then
        .error (.missingOutput filename)
      else do
        let others ← collect_output_files fs action ignore_errors rest
        pure (filename :: others)
    else
      collect_output_files fs action ignore_errors rest

/-- `manage_jobs.list_outputs_from_action`. -/
def list_outputs_from_action (fs : WorkspaceFS) (action : String)
    (ignore_errors : Bool := false) : Except ListOutputsError (List String) := do
  let manifest := read_manifest_file fs.manifest
  let files := manifest.files
  let status : Option String := (alist_get manifest.actions action).map (·.status)
  if !ignore_errors then
    match status with
    | none => throw .actionNotRun
    | some st =>
      if st != State.succeeded.value then throw .actionFailed else pure ()
  collect_output_files fs action ignore_errors files

/-- `manage_jobs.action_has_successful_outputs`. -/
def action_has_successful_outputs (fs : WorkspaceFS) (action : String) :
    Option Bool :=
  match list_outputs_from_action fs action false with
  | .ok _ => some true
  | .error .actionFailed => some false
  | .error .actionNotRun => none
  | .error (.missingOutput _) => none

/-- All files the manifest attributes to `action` exist on disk. -/
def all_outputs_on_disk (fs : WorkspaceFS) (action : String)
    (files : List (String × FileDetails)) : Bool :=
  files.all (fun p => !(p.2.created_by_action == action) || fs.on_disk p.1)

theorem collect_output_files_spec (fs : WorkspaceFS) (action : String)
    (files : List (String × FileDetails)) :
    (all_outputs_on_disk fs action files = true ∧
      ∃ l, collect_output_files fs action false files = .ok l) ∨
    (all_outputs_on_disk fs action files = false ∧
      ∃ f, collect_output_files fs action false files =
        .error (.missingOutput f)) := by
  induction files with
  | nil => exact Or.inl ⟨rfl, [], rfl⟩
  | cons p rest ih =>
    obtain ⟨f, d⟩ := p
    by_cases hattr : d.created_by_action == action
    · by_cases hdisk : fs.on_disk f
      · rcases ih with ⟨hall, l, hok⟩ | ⟨hall, g, herr⟩
        · refine Or.inl ⟨?_, f :: l, ?_⟩
          · simp [all_outputs_on_disk, hattr, hdisk] at hall ⊢
            exact hall
          · simp [collect_output_files, hattr, hdisk, hok]
        · refine Or.inr ⟨?_, g, ?_⟩
          · simp [all_outputs_on_disk, hattr, hdisk] at hall ⊢
            exact hall
          · simp [collect_output_files, hattr, hdisk, herr]
      · refine Or.inr ⟨?_, f, ?_⟩
        · simp [all_outputs_on_disk, hattr, hdisk]
        · simp [collect_output_files, hattr, hdisk]
    · rcases ih with ⟨hall, l, hok⟩ | ⟨hall, g, herr⟩
      · refine Or.inl ⟨?_, l, ?_⟩
        · simp [all_outputs_on_disk, hattr] at hall ⊢
          exact hall
        · simp [collect_output_files, hattr, hok]
      · refine Or.inr ⟨?_, g, ?_⟩
        · simp [all_outputs_on_disk, hattr] at hall ⊢
          exact hall
        · simp [collect_output_files, hattr, herr]

theorem action_has_successful_outputs_eq (fs : WorkspaceFS) (action : String) :
    action_has_successful_outputs fs action =
      match alist_get (read_manifest_file fs.manifest).actions action with
      | Option.none => Option.none
      | some e =>
        if e.status = State.succeeded.value then
          (if all_outputs_on_disk fs action (read_manifest_file fs.manifest).files
           then some true else Option.none)
        else some false := by
  unfold action_has_successful_outputs list_outputs_from_action
  cases hga : alist_get (read_manifest_file fs.manifest).actions action with
  | none => simp [hga, throw, throwThe, MonadExceptOf.throw, bind, Except.bind]
  | some e =>
    by_cases hst : e.status = State.succeeded.value
    · simp only [hga, Option.map_some, Bool.not_false, if_pos, hst]
      rcases collect_output_files_spec fs action
          (read_manifest_file fs.manifest).files with ⟨hall, l, hok⟩ | ⟨hall, g, herr⟩
      · simp [hok, hall, hst]
      · simp [herr, hall, hst]
    · simp [hga, hst, throw, throwThe, MonadExceptOf.throw, bind, Except.bind]

theorem all_outputs_on_disk_iff (fs : WorkspaceFS) (action : String)
    (files : List (String × FileDetails)) :
    all_outputs_on_disk fs action files = true ↔
      ∀ f d, (f, d) ∈ files → d.created_by_action = action →
        fs.on_disk f = true := by
  unfold all_outputs_on_disk
  rw [List.all_eq_true]
  constructor
  · intro h f d hmem hcr
    have hp := h (f, d) hmem
    simp only [Bool.or_eq_true, Bool.not_eq_true'] at hp
    rcases hp with hne | hd
    · exact absurd hcr (by simpa using hne)
    · exact hd
  · intro h p hmem
    by_cases hcr : p.2.created_by_action = action
    · simp [h p.1 p.2 hmem hcr]
    · simp [hcr]

/-- The per-entry redaction function used by `redact_environment_variables`. -/
def redact_entry (kv : String × String) : String × String :=
  if SAFE_ENVIRONMENT_VARIABLES.contains kv.1 then (kv.1, kv.2)
  else (kv.1, "xxxx-REDACTED-xxxx")

theorem redact_environment_variables_eq_map (cm : ContainerMetadata) :
    (redact_environment_variables cm).env = cm.env.map redact_entry := rfl

theorem redact_map_congr (l₁ l₂ : List (String × String))
    (h : List.Forall₂ (fun p q : String × String =>
      p.1 = q.1 ∧ (SAFE_ENVIRONMENT_VARIABLES.contains p.1 = true → p.2 = q.2))
      l₁ l₂) :
    l₁.map redact_entry = l₂.map redact_entry := by
  induction h with
  | nil => rfl
  | @cons p q l₁ l₂ hpq _ ih =>
    obtain ⟨hk, hv⟩ := hpq
    simp only [List.map_cons, ih, List.cons.injEq, and_true]
    unfold redact_entry
    rw [← hk]
    by_cases hsafe : SAFE_ENVIRONMENT_VARIABLES.contains p.1 = true
    · rw [if_pos hsafe, if_pos hsafe, hv hsafe]
    · rw [if_neg hsafe, if_neg hsafe]

end JR

/-- C10: for rows whose fields are typed `list`, `dict` or an `Enum` subclass
(with `None` allowed), decoding after encoding is the identity, and reading a
record back through `decode_field_values` immediately after it was stored via
`encode_field_values` (as `insert` followed by `find_where` does) yields the
inserted values. -/
theorem database_round_trip (fts : List JR.FieldType) (vs : List JR.PyValue)
    (tbl : List (List JR.DbValue)) (rows : List (List JR.PyValue))
    (h : List.Forall₂ (fun ft v => JR.type_ok ft v = true) fts vs)
    (htbl : JR.find_where_all fts tbl = some rows) :
    ∃ cells tbl',
      JR.encode_field_values fts vs = some cells ∧
      JR.decode_field_values fts cells = some vs ∧
      JR.insert_row fts tbl vs = some tbl' ∧
      JR.find_where_all fts tbl' = some (rows ++ [vs]) := by
  obtain ⟨cells, henc, hdec⟩ := JR.encode_decode_row fts vs h
  refine ⟨cells, tbl ++ [cells], henc, hdec, ?_, ?_⟩
  · simp [JR.insert_row, henc]
  · exact JR.find_where_all_append fts tbl rows cells vs htbl hdec

/-- Witness for C10 at a concrete row holding a list, an enum member and a
`None`-valued dict field. -/
theorem database_round_trip_witness :
    ∃ cells tbl',
      JR.encode_field_values [JR.FieldType.tlist, JR.FieldType.tenum, JR.FieldType.tdict]
        [JR.PyValue.jlist [JR.Json.num 1], JR.PyValue.enum JR.State.pending,
         JR.PyValue.none] = some cells ∧
      JR.decode_field_values [JR.FieldType.tlist, JR.FieldType.tenum, JR.FieldType.tdict]
        cells = some [JR.PyValue.jlist [JR.Json.num 1],
          JR.PyValue.enum JR.State.pending, JR.PyValue.none] ∧
      JR.insert_row [JR.FieldType.tlist, JR.FieldType.tenum, JR.FieldType.tdict] []
        [JR.PyValue.jlist [JR.Json.num 1], JR.PyValue.enum JR.State.pending,
         JR.PyValue.none] = some tbl' ∧
      JR.find_where_all [JR.FieldType.tlist, JR.FieldType.tenum, JR.FieldType.tdict]
        tbl' = some ([] ++ [[JR.PyValue.jlist [JR.Json.num 1],
          JR.PyValue.enum JR.State.pending, JR.PyValue.none]]) :=
  database_round_trip _ _ [] []
    (List.Forall₂.cons rfl (List.Forall₂.cons rfl
      (List.Forall₂.cons rfl List.Forall₂.nil))) rfl

namespace V2

/-- Job lifecycle states of the v2 runner.  Modelled from the spec
(`v2/jobrunner/models.py` is not in the sources): the terminal success state
is `COMPLETED`. -/
inductive State where
  | pending
  | running
  | failed
  | completed
deriving DecidableEq, Repr

/-- A v2 job row, reduced to the fields `v2/jobrunner/run.py` reads and
writes. -/
structure Job where
  id : String
  status : State
  status_message : Option String := none
  wait_for_job_ids : List String := []
  workspace : String := ""
  action : String := ""
deriving DecidableEq, Repr

/-- The job table (`database.find_where(Job, ...)` order = row order). -/
abbrev Db := List Job

/-- `database.select_values(Job, "status", id__in=job_ids)`. -/
def select_values_status (db : Db) (ids : List String) : List State :=
  (db.filter (fun j => ids.contains j.id)).map (·.status)

/-- `run.get_states_of_awaited_jobs`. -/
def get_states_of_awaited_jobs (db : Db) (job : Job) : List State :=
  if job.wait_for_job_ids.isEmpty then []
  else select_values_status db job.wait_for_job_ids

/-- `database.count_where(Job, status=State.RUNNING)`. -/
def count_where_running (db : Db) : Nat :=
  (db.filter (fun j => j.status == State.running)).length

/-- `run.job_running_capacity_available`. -/
def job_running_capacity_available (db : Db) (max_workers : Nat) : Bool :=
  count_where_running db < max_workers

/-- `database.update(job, update_fields=[...])`: rewrite the fields of every
row whose `id` matches. -/
def update_job (db : Db) (id : String) (f : Job → Job) : Db :=
  db.map (fun r => if r.id == id then f r else r)

/-- `run.mark_job_as_failed` (`status_message = "<ErrorKind>: <text>"`; the
exceptions reaching it in `handle_pending_job` / `handle_running_job` are
`JobError`s). -/
def mark_job_as_failed (db : Db) (job : Job) (msg : String) : Db :=
  update_job db job.id (fun r =>
    { r with status := .failed, status_message := some ("JobError: " ++ msg) })

/-- The row update performed by `run.mark_job_as_running`. -/
def set_running (r : Job) : Job :=
  { r with status := .running, status_message := some "Started" }

/-- `run.mark_job_as_running`. -/
def mark_job_as_running (db : Db) (job : Job) : Db :=
  update_job db job.id set_running

/-- `run.mark_job_as_completed`. -/
def mark_job_as_completed (db : Db) (job : Job) : Db :=
  update_job db job.id (fun r =>
    { r with status := .completed, status_message := some "Completed successfully" })

/-- `run.log`: build the (possibly timestamped) message and write it to the
store only when it differs from the current one, ignoring the final
character of timestamped messages.  `now` is the formatted wall-clock
timestamp, an input of the embedding. -/
def log_status (db : Db) (job : Job) (message : String) (timestamp : Bool)
    (now : String) : Db :=
  let message := if timestamp then message ++ " at " ++ now else message
  let changed :=
    if timestamp then
      match job.status_message with
      | some m => if m ≠ "" then m.dropRight 1 != message.dropRight 1 else true
      | none => true
    else
      job.status_message != some message
  if changed then
    update_job db job.id (fun r => { r with status_message := some message })
  else db

/-- The outcome of the external `start_job` call (container runtime):
`JobError` or success. -/
inductive StartResult where
  | ok
  | jobError (msg : String)
deriving DecidableEq, Repr

/-- `run.handle_pending_job`, with the `start_job` outcome and the formatted
timestamp supplied as inputs.  `cleanup_job` only touches Docker state, so it
has no effect on the store. -/
def handle_pending_job (db : Db) (job : Job) (max_workers : Nat)
    (start : StartResult) (now : String) : Db :=
  let awaited := get_states_of_awaited_jobs db job
  if awaited.contains State.failed then
    mark_job_as_failed db job "Not starting as dependency failed"
  else if awaited.all (· == State.completed) then
    if !job_running_capacity_available db max_workers then
      log_status db job "Waiting for available workers" true now
    else
      let db := log_status db job "Starting" false now
      match start with
      | .jobError e => mark_job_as_failed db job e
      | .ok => mark_job_as_running db job
  else
    log_status db job "Waiting on dependencies" true now

/-- The outcome of the external `finalise_job` call. -/
inductive FinaliseResult where
  | ok
  | jobError (msg : String)
deriving DecidableEq, Repr

/-- `run.handle_running_job`, with `job_still_running` and the `finalise_job`
outcome supplied as inputs. -/
def handle_running_job (db : Db) (job : Job) (still_running : Bool)
    (fin : FinaliseResult) (now : String) : Db :=
  if still_running then
    log_status db job "Running" true now
  else
    match fin with
    | .jobError e => mark_job_as_failed db job e
    | .ok => mark_job_as_completed db job

theorem mem_update_job (db : Db) (id : String) (f : Job → Job) (r : Job)
    (hr : r ∈ update_job db id f) :
    ∃ r₀ ∈ db, r = if r₀.id == id then f r₀ else r₀ := by
  simp only [update_job, List.mem_map] at hr
  obtain ⟨r₀, h₀, heq⟩ := hr
  exact ⟨r₀, h₀, heq.symm⟩

theorem mark_job_as_failed_spec (db : Db) (job : Job) (msg : String) (r : Job)
    (hr : r ∈ mark_job_as_failed db job msg) (hid : r.id = job.id) :
    r.status = .failed ∧ r.status_message = some ("JobError: " ++ msg) := by
  obtain ⟨r₀, _, heq⟩ := mem_update_job _ _ _ _ hr
  by_cases h : r₀.id == job.id
  · rw [if_pos h] at heq
    subst heq
    exact ⟨rfl, rfl⟩
  · rw [if_neg h] at heq
    subst heq
    exact absurd hid (by simpa using h)

theorem log_status_cases (db : Db) (job : Job) (m : String) (t : Bool)
    (now : String) :
    log_status db job m t now = db ∨
      ∃ msg, log_status db job m t now =
        update_job db job.id (fun r => { r with status_message := some msg }) := by
  unfold log_status
  dsimp only
  split
  · split
    · exact Or.inr ⟨_, rfl⟩
    · exact Or.inl rfl
  · split
    · exact Or.inr ⟨_, rfl⟩
    · exact Or.inl rfl

theorem mem_log_status (db : Db) (job : Job) (m : String) (t : Bool)
    (now : String) (r : Job) (hr : r ∈ log_status db job m t now) :
    ∃ r₀ ∈ db, r.status = r₀.status ∧ r.id = r₀.id ∧
      r.wait_for_job_ids = r₀.wait_for_job_ids := by
  rcases log_status_cases db job m t now with h | ⟨msg, h⟩
  · rw [h] at hr
    exact ⟨r, hr, rfl, rfl, rfl⟩
  · rw [h] at hr
    obtain ⟨r₀, h₀, heq⟩ := mem_update_job _ _ _ _ hr
    refine ⟨r₀, h₀, ?_⟩
    by_cases hb : r₀.id == job.id
    · rw [if_pos hb] at heq
      subst heq
      exact ⟨rfl, rfl, rfl⟩
    · rw [if_neg hb] at heq
      subst heq
      exact ⟨rfl, rfl, rfl⟩

theorem status_mem_awaited (db : Db) (job j' : Job) (hmem : j' ∈ db)
    (hid : j'.id ∈ job.wait_for_job_ids) :
    j'.status ∈ get_states_of_awaited_jobs db job := by
  have hne : job.wait_for_job_ids.isEmpty = false := by
    cases h : job.wait_for_job_ids with
    | nil => rw [h] at hid; cases hid
    | cons a l => rfl
  unfold get_states_of_awaited_jobs select_values_status
  rw [hne]
  simp only [Bool.false_eq_true, if_false, List.mem_map]
  refine ⟨j', List.mem_filter.mpr ⟨hmem, ?_⟩, rfl⟩
  simpa using hid

theorem count_where_running_map_le (db : Db) (f : Job → Job)
    (h : ∀ r, (f r).status = State.running → r.status = State.running) :
    count_where_running (db.map f) ≤ count_where_running db := by
  unfold count_where_running
  induction db with
  | nil => simp
  | cons r rest ih =>
    simp only [List.map_cons]
    by_cases hfr : (f r).status = State.running
    · have hrr : r.status = State.running := h r hfr
      simp only [List.filter_cons, hfr, hrr]
      simp only [beq_self_eq_true, if_pos, List.length_cons]
      exact Nat.succ_le_succ ih
    · by_cases hrr : r.status = State.running
      · simp only [List.filter_cons, hrr, beq_self_eq_true, if_pos,
          beq_eq_false_iff_ne, ne_eq]
        have : ((f r).status == State.running) = false := by
          simpa using hfr
        simp only [this, Bool.false_eq_true, if_false, List.length_cons]
        exact Nat.le_succ_of_le ih
      · have h1 : ((f r).status == State.running) = false := by simpa using hfr
        have h2 : (r.status == State.running) = false := by simpa using hrr
        simp only [List.filter_cons, h1, h2, Bool.false_eq_true, if_false]
        exact ih

theorem count_where_running_eq_countP (db : Db) :
    count_where_running db = (db.map (·.status)).countP (· == State.running) := by
  unfold count_where_running
  induction db with
  | nil => simp
  | cons r rest ih =>
    simp only [List.map_cons, List.filter_cons, List.countP_cons]
    by_cases hr : (r.status == State.running) = true
    · simp [hr, ih]
    · simp only [hr, Bool.false_eq_true, if_false, ih]
      simp only [Bool.not_eq_true] at hr
      simp [hr]

theorem count_where_running_congr (db₁ db₂ : Db)
    (h : db₁.map (·.status) = db₂.map (·.status)) :
    count_where_running db₁ = count_where_running db₂ := by
  rw [count_where_running_eq_countP, count_where_running_eq_countP, h]

theorem update_job_map_status_congr (db : Db) (id : String) (f : Job → Job)
    (h : ∀ r, (f r).status = r.status) :
    (update_job db id f).map (·.status) = db.map (·.status) := by
  unfold update_job
  rw [List.map_map]
  apply List.map_congr_left
  intro r _
  by_cases hb : (r.id == id) = true
  · have he : r.id = id := by simpa using hb
    simp [he, h r]
  · have he : ¬ r.id = id := by simpa using hb
    simp [he]

theorem update_job_map_id_congr (db : Db) (id : String) (f : Job → Job)
    (h : ∀ r, (f r).id = r.id) :
    (update_job db id f).map (·.id) = db.map (·.id) := by
  unfold update_job
  rw [List.map_map]
  apply List.map_congr_left
  intro r _
  by_cases hb : (r.id == id) = true
  · have he : r.id = id := by simpa using hb
    simp [he, h r]
  · have he : ¬ r.id = id := by simpa using hb
    simp [he]

theorem log_status_map_status (db : Db) (job : Job) (m : String) (t : Bool)
    (now : String) :
    (log_status db job m t now).map (·.status) = db.map (·.status) := by
  rcases log_status_cases db job m t now with h | ⟨msg, h⟩
  · rw [h]
  · rw [h]
    exact update_job_map_status_congr db job.id _ (fun r => rfl)

theorem log_status_map_id (db : Db) (job : Job) (m : String) (t : Bool)
    (now : String) :
    (log_status db job m t now).map (·.id) = db.map (·.id) := by
  rcases log_status_cases db job m t now with h | ⟨msg, h⟩
  · rw [h]
  · rw [h]
    exact update_job_map_id_congr db job.id _ (fun r => rfl)

theorem count_mark_running_le :
    ∀ (db : Db) (job : Job), (db.map (·.id)).Nodup →
      count_where_running (mark_job_as_running db job) ≤
        count_where_running db + 1 := by
  intro db job
  unfold mark_job_as_running update_job count_where_running
  induction db with
  | nil => intro _; simp
  | cons r rest ih =>
    intro hnd
    simp only [List.map_cons, List.nodup_cons] at hnd
    obtain ⟨hrid, hndrest⟩ := hnd
    simp only [List.map_cons]
    by_cases hb : (r.id == job.id) = true
    · have hjid : r.id = job.id := by simpa using hb
      have hrest : rest.map (fun x =>
          if x.id == job.id then set_running x else x) = rest := by
        conv_rhs => rw [← List.map_id rest]
        apply List.map_congr_left
        intro x hx
        have hx' : x.id ≠ job.id := by
          intro hxe
          have hm : x.id ∈ rest.map (fun x => x.id) :=
            List.mem_map_of_mem _ hx
          rw [hxe, ← hjid] at hm
          exact hrid hm
        simp [hx']
      rw [if_pos hb, hrest]
      simp only [List.filter_cons]
      by_cases hrr : (r.status == State.running) = true
      · simp only [hrr, if_pos, List.length_cons]
        have hsr : ((set_running r).status == State.running) = true := by
          simp [set_running]
        simp only [hsr, if_pos, List.length_cons]
        omega
      · simp only [hrr, Bool.false_eq_true, if_false]
        have hsr : ((set_running r).status == State.running) = true := by
          simp [set_running]
        simp only [hsr, if_pos, List.length_cons]
        omega
    · rw [if_neg hb]
      simp only [List.filter_cons]
      have hle := ih hndrest
      by_cases hrr : (r.status == State.running) = true
      · simp only [hrr, if_pos, List.length_cons]
        omega
      · simp only [hrr, Bool.false_eq_true, if_false]
        exact hle

theorem count_mark_failed_le (db : Db) (job : Job) (msg : String) :
    count_where_running (mark_job_as_failed db job msg) ≤
      count_where_running db := by
  unfold mark_job_as_failed update_job
  apply count_where_running_map_le
  intro r hfr
  by_cases hb : (r.id == job.id) = true
  · rw [if_pos hb] at hfr
    simp at hfr
  · rw [if_neg hb] at hfr
    exact hfr

theorem count_mark_completed_le (db : Db) (job : Job) :
    count_where_running (mark_job_as_completed db job) ≤
      count_where_running db := by
  unfold mark_job_as_completed update_job
  apply count_where_running_map_le
  intro r hfr
  by_cases hb : (r.id == job.id) = true
  · rw [if_pos hb] at hfr
    simp at hfr
  · rw [if_neg hb] at hfr
    exact hfr

theorem count_log_status_eq (db : Db) (job : Job) (m : String) (t : Bool)
    (now : String) :
    count_where_running (log_status db job m t now) = count_where_running db :=
  count_where_running_congr _ _ (log_status_map_status db job m t now)

end V2

namespace JR

/-- A v1 job row (`jobrunner/models.py` fields, as used by the embedded
code). -/
structure Job where
  id : String
  job_request_id : String
  status : State
  repo_url : String := ""
  commit : Option String := none
  workspace : String := ""
  database_name : String := ""
  action : String := ""
  wait_for_job_ids : List String := []
  requires_outputs_from : List String := []
  run_command : String := ""
  output_spec : OutputSpec := []
  status_message : Option String := none
  created_at : Option Nat := none
  completed_at : Option Nat := none
deriving DecidableEq

/-! ### Finalisation (`manage_jobs.finalise_job`) -/

/-- The two workspace directories written by `finalise_job`. -/
inductive WsDir where
  | high
  | medium
deriving DecidableEq, Repr

/-- Filesystem writes performed by `finalise_job`, in program order. -/
inductive FEvent where
  | write_log_file
  | write_metadata_json
  | copy_log_to_workspace
  | extract_output (filename : String)
  | delete_file (dir : WsDir) (filename : String)
  | copy_log_to_medium
  | copy_medium_output (filename : String)
  | write_manifest (dir : WsDir)
deriving DecidableEq, Repr

/-- Python dict assignment `d[k] = v` on an insertion-ordered assoc list. -/
def dict_insert (l : List (String × String)) (k v : String) :
    List (String × String) :=
  if l.any (fun p => p.1 == k) then
    l.map (fun p => if p.1 == k then (k, v) else p)
  else l ++ [(k, v)]

/-- `manage_jobs.find_matching_outputs`: walk the output spec in order,
recording patterns with no matches and mapping each matched file to its
privacy level (last privacy level wins for duplicate paths).  `all_matches`
is the mapping returned by `docker.glob_volume_files`. -/
def find_matching_outputs (output_spec : OutputSpec)
    (all_matches : String → List String) :
    List (String × String) × List String :=
  output_spec.foldl (fun acc pl_named =>
    pl_named.2.foldl (fun acc2 np =>
      let files := all_matches np.2
      let outs := files.foldl (fun o f => dict_insert o f pl_named.1) acc2.1
      let unmatched := if files.isEmpty then acc2.2 ++ [np.2] else acc2.2
      (outs, unmatched)) acc) ([], [])

/-- `list_outputs_from_action(..., ignore_errors=True)` as used by
`finalise_job` (with errors ignored the call always succeeds). -/
def existing_outputs (ws : WorkspaceFS) (action : String) : List String :=
  match list_outputs_from_action ws action true with
  | .ok l => l
  | .error _ => []

/-- `files_to_remove = set(existing_files) - set(outputs)` (the manifest keys
are unique, so the set difference is modelled as a filter). -/
def files_to_remove (ws : WorkspaceFS) (action : String)
    (outputs : List (String × String)) : List String :=
  (existing_outputs ws action).filter
    (fun f => !(outputs.any (fun p => p.1 == f)))

/-- `manage_jobs.finalise_job` as a trace of filesystem writes plus the
`JobError` message it raises, if any.  The container metadata, glob results
and workspace state are the container-runtime/filesystem inputs.  A `none`
metadata means the container has vanished: the error is raised before any
write.  Exit-code and unmatched-pattern errors are created up front but
raised only after every write has happened. -/
def finalise_job (job : Job) (cm : Option ContainerMetadata)
    (all_matches : String → List String) (ws : WorkspaceFS)
    (medium_configured : Bool) : List FEvent × Option String :=
  match cm with
  | none => ([], some "Job container has vanished")
  | some metadata =>
    let fmo := find_matching_outputs job.output_spec all_matches
    let outputs := fmo.1
    let unmatched_patterns := fmo.2
    let error : Option String :=
      if metadata.exit_code != 0 then some "Job exited with an error code"
      else if !unmatched_patterns.isEmpty then
        some ("No outputs found matching: " ++
          String.intercalate ", " unmatched_patterns)
      else none
    let to_remove := files_to_remove ws job.action outputs
    let pre_events :=
      [FEvent.write_log_file, FEvent.write_metadata_json,
       FEvent.copy_log_to_workspace]
      ++ outputs.map (fun p => FEvent.extract_output p.1)
      ++ to_remove.map (fun f => FEvent.delete_file .high f)
      ++ (if medium_configured then
            [FEvent.copy_log_to_medium]
            ++ (outputs.filter (fun p => p.2 == "moderately_sensitive")).map
                (fun p => FEvent.copy_medium_output p.1)
            ++ to_remove.map (fun f => FEvent.delete_file .medium f)
            ++ [FEvent.write_manifest .medium]
          else [])
    (pre_events ++ [FEvent.write_manifest .high], error)

/-! ### Volume glob matching (`docker.glob_volume_files`) -/

/-- Recognition of `[^/]*` followed by the rest of the regex `f`: try the
empty wildcard first, then extend it one non-`/` character at a time. -/
def gstar (f : List Char → Bool) : List Char → Bool
  | [] => f []
  | c :: cs => f (c :: cs) || (c != '/' && gstar f cs)

/-- Whole-string matching of the regex produced by
`docker._glob_pattern_to_regex` (`*` → `[^/]*`, every other character
literal), as used by `find -regex` which matches the entire path. -/
def gmatch : List Char → List Char → Bool
  | [], cs => cs.isEmpty
  | p :: ps, cs =>
    if p = '*' then gstar (gmatch ps) cs
    else
      match cs with
      | [] => false
      | c :: cs1 => p == c && gmatch ps cs1

/-- Prefix matching of the same regex, as performed by Python's
`re.match`, which succeeds when the regex matches at the beginning of the
string without having to consume it entirely. -/
def gmatch_pre : List Char → List Char → Bool
  | [], _ => true
  | p :: ps, cs =>
    if p = '*' then gstar (gmatch_pre ps) cs
    else
      match cs with
      | [] => false
      | c :: cs1 => p == c && gmatch_pre ps cs1

/-- Whole-path match of a glob pattern (the `find -regex` side). -/
def glob_full_match (pattern path : String) : Bool :=
  gmatch pattern.toList path.toList

/-- Prefix match of a glob pattern's regex (the `re.match` side). -/
def glob_regex_match (pattern path : String) : Bool :=
  gmatch_pre pattern.toList path.toList

/-- `docker.glob_volume_files`: `find` lists the files in the volume whose
whole path matches some pattern's regex, the result is sorted, and each
pattern is then paired with the files that `re.match` accepts for it. -/
def glob_volume_files (glob_patterns : List String)
    (volume_files : List String) : List (String × List String) :=
  let files := volume_files.filter
    (fun f => glob_patterns.any (fun p => glob_full_match p f))
  let files := List.insertionSort (· ≤ ·) files
  glob_patterns.map (fun p => (p, files.filter (fun f => glob_regex_match p f)))

theorem gstar_mono (f g : List Char → Bool)
    (h : ∀ cs, f cs = true → g cs = true) :
    ∀ cs, gstar f cs = true → gstar g cs = true := by
  intro cs
  induction cs with
  | nil =>
    intro hf
    simp only [gstar] at hf ⊢
    exact h [] hf
  | cons c cs ih =>
    intro hf
    simp only [gstar, Bool.or_eq_true, Bool.and_eq_true] at hf ⊢
    rcases hf with hf | ⟨hslash, hstar⟩
    · exact Or.inl (h _ hf)
    · exact Or.inr ⟨hslash, ih hstar⟩

theorem gmatch_imp_prefix : ∀ pat cs, gmatch pat cs = true →
    gmatch_pre pat cs = true := by
  intro pat
  induction pat with
  | nil => intro cs _; rfl
  | cons p ps ih =>
    intro cs h
    by_cases hp : p = '*'
    · subst hp
      have h' : gstar (gmatch ps) cs = true := by
        simpa [gmatch] using h
      have h'' : gstar (gmatch_pre ps) cs = true :=
        gstar_mono _ _ (fun cs2 => ih cs2) cs h'
      simpa [gmatch_pre] using h''
    · cases cs with
      | nil => simp [gmatch, hp] at h
      | cons c cs1 =>
        rw [show gmatch (p :: ps) (c :: cs1) = (p == c && gmatch ps cs1) from
          by simp [gmatch, hp]] at h
        rw [show gmatch_pre (p :: ps) (c :: cs1) =
            (p == c && gmatch_pre ps cs1) from by simp [gmatch_pre, hp]]
        rw [Bool.and_eq_true] at h ⊢
        exact ⟨h.1, ih cs1 h.2⟩

theorem glob_full_match_imp_regex_match (pattern path : String)
    (h : glob_full_match pattern path = true) :
    glob_regex_match pattern path = true :=
  gmatch_imp_prefix _ _ h

/-! ### Request expansion (`create_or_update_jobs.py`) -/

/-- The exceptions of `create_or_update_jobs`: `GitError` (from `git.py`),
`ProjectValidationError` (from `project.py`), `JobRequestError` (defined in
`create_or_update_jobs.py`), plus the uncaught Python `RecursionError`
raised by unbounded recursion and an uncaught crash (`AttributeError`). -/
inductive CreateJobsError where
  | gitError (msg : String)
  | projectValidationError (msg : String)
  | jobRequestError (msg : String)
  | recursionError
  | internalError
deriving DecidableEq, Repr

/-- `type(exception).__name__`, as interpolated into `status_message`. -/
def CreateJobsError.type_name : CreateJobsError → String
  | .gitError _ => "GitError"
  | .projectValidationError _ => "ProjectValidationError"
  | .jobRequestError _ => "JobRequestError"
  | .recursionError => "RecursionError"
  | .internalError => "AttributeError"

/-- `str(exception)`. -/
def CreateJobsError.text : CreateJobsError → String
  | .gitError m => m
  | .projectValidationError m => m
  | .jobRequestError m => m
  | .recursionError => "maximum recursion depth exceeded"
  | .internalError => ""

/-- Whether `except (GitError, ProjectValidationError, JobRequestError)` in
`create_or_update_jobs` catches the exception. -/
def CreateJobsError.is_caught : CreateJobsError → Bool
  | .gitError _ => true
  | .projectValidationError _ => true
  | .jobRequestError _ => true
  | .recursionError => false
  | .internalError => false

/-- A job request as received from the job-server. -/
structure JobRequest where
  id : String
  repo_url : String := ""
  commit : Option String := none
  branch : String := ""
  workspace : String := ""
  database_name : String := ""
  requested_actions : List String := []
  force_run_dependencies : Bool := false
  original : String := ""
deriving DecidableEq, Repr

/-- The persisted copy of the original request payload. -/
structure SavedJobRequest where
  id : String
  original : String
deriving DecidableEq, Repr

/-- The store's two tables, rows in insertion order. -/
structure Store where
  jobs : List Job
  job_requests : List SavedJobRequest
deriving DecidableEq

/-- The configuration consulted by the expander. -/
structure Config where
  local_run_mode : Bool := false
  using_dummy_data_backend : Bool := false
  database_urls : List (String × String) := []
  backend : String := ""
deriving DecidableEq, Repr

/-- `get_action_specification`'s result (`{run, needs, outputs}`). -/
structure ActionSpec where
  run : String := ""
  needs : List String := []
  outputs : OutputSpec := []
deriving DecidableEq

/-- A parsed and validated project file: the map from action name to its
specification. -/
def Project := String → Option ActionSpec

/-- The external collaborators of the expander, modelled from the spec's
contracts for them: git (`get_sha_from_remote_ref`, `read_file_from_repo`),
the local project file, `project.parse_and_validate_project_file` (from
`jobrunner/project.py`, not among the sources; per the spec its failures are
a single `ProjectValidationError` kind), the per-workspace filesystem state,
and wall-clock time. -/
structure Externals where
  get_sha_from_remote_ref : String → String → Except CreateJobsError String
  read_file_from_repo : String → String → Except CreateJobsError String
  read_local_project_file : String → Except CreateJobsError String
  parse_and_validate_project_file : String → Except CreateJobsError Project
  workspace_fs : String → WorkspaceFS
  now : Nat

/-- Modelled from the spec: `project.get_action_specification` resolves an
action's `{run, needs, outputs}` and surfaces validation failures (such as
an unknown action) as a `ProjectValidationError`. -/
def get_action_specification (project : Project) (action : String) :
    Except CreateJobsError ActionSpec :=
  match project action with
  | some spec => .ok spec
  | none => .error (.projectValidationError
      ("Action '" ++ action ++ "' not found in project.yaml"))

/-- `Job.new_id()`, with the fresh-token generator modelled as a counter. -/
def new_id (n : Nat) : String :=
  "job-" ++ Nat.repr n

/-- `create_or_update_jobs.validate_job_request`. -/
def validate_job_request (cfg : Config) (req : JobRequest) :
    Except CreateJobsError Unit :=
  if req.workspace = "" then
    .error (.jobRequestError "Workspace name cannot be blank")
  else if !cfg.local_run_mode &&
      req.workspace.toList.any
        (fun c => !(c.isAlphanum || c = '_' || c = '-')) then
    .error (.jobRequestError
      "Invalid workspace name (allowed are alphanumeric, dash and underscore)")
  else
    let valid_names :=
      if cfg.using_dummy_data_backend then ["dummy"]
      else cfg.database_urls.map Prod.fst
    if !(valid_names.contains req.database_name) then
      .error (.jobRequestError
        ("Invalid database name '" ++ req.database_name ++ "', allowed are: "
          ++ String.intercalate ", " valid_names))
    else if !cfg.using_dummy_data_backend &&
        ((alist_get cfg.database_urls req.database_name).getD "") = "" then
      .error (.jobRequestError
        ("Database name '" ++ req.database_name ++
          "' is not currently defined for backend '" ++ cfg.backend ++ "'"))
    else .ok ()

/-- The `find_where(Job, workspace=…, action=…, status__in=[PENDING,
RUNNING])` dedup query of `recursively_add_jobs`. -/
def active_jobs_for (s : Store) (w a : String) : List Job :=
  s.jobs.filter (fun j => j.workspace == w && j.action == a &&
    (j.status == State.pending || j.status == State.running))

/-- `related_jobs_exist`. -/
def related_jobs_exist (s : Store) (req : JobRequest) : Bool :=
  s.jobs.any (fun j => j.job_request_id == req.id)

/-- The `for required_action in action_spec.needs` loop of
`recursively_add_jobs`: run `f` (the recursive call one level deeper) on
each needed action in order, collecting the ids of the returned jobs and
threading the store and the id counter. -/
def add_needed_jobs
    (f : Store → Nat → String → Except CreateJobsError (Option Job × Store × Nat)) :
    Store → Nat → List String → Except CreateJobsError (List String × Store × Nat)
  | s, ctr, [] => .ok ([], s, ctr)
  | s, ctr, a :: rest => do
    let (rj, s1, c1) ← f s ctr a
    let (ids, s2, c2) ← add_needed_jobs f s1 c1 rest
    .ok ((match rj with | some j => j.id :: ids | none => ids), s2, c2)

/-- `create_or_update_jobs.recursively_add_jobs`.  `force_run_actions` is
`none` for the `"*"` wildcard and `some l` for an explicit list.  The fuel
argument bounds the Python recursion depth; exhausting it is the
(uncaught) `RecursionError` of cyclic projects. -/
def recursively_add_jobs (cfg : Config) (ext : Externals) (req : JobRequest)
    (project : Project) (force_run_actions : Option (List String)) :
    Nat → Store → Nat → String →
      Except CreateJobsError (Option Job × Store × Nat)
  | 0, _, _, _ => .error .recursionError
  | fuel + 1, s, ctr, action =>
    match active_jobs_for s req.workspace action with
    | j :: _ => .ok (some j, s, ctr)
    | [] =>
      let skip_check : Bool :=
        match force_run_actions with
        | none => false
        | some l => !(l.contains action)
      match (if skip_check then
          action_has_successful_outputs (ext.workspace_fs req.workspace) action
        else Option.none) with
      | some true => .ok (Option.none, s, ctr)
      | some false => .error (.jobRequestError
          (action ++ " failed on a previous run and must be re-run"))
      | Option.none => do
        let spec ← get_action_specification project action
        let (ids, s1, c1) ← add_needed_jobs
          (recursively_add_jobs cfg ext req project force_run_actions fuel)
          s ctr spec.needs
        let j : Job :=
          { id := new_id c1, job_request_id := req.id,
            status := State.pending, repo_url := req.repo_url,
            commit := req.commit, workspace := req.workspace,
            database_name := req.database_name, action := action,
            wait_for_job_ids := ids, requires_outputs_from := spec.needs,
            run_command := spec.run, output_spec := spec.outputs,
            created_at := some ext.now }
        .ok (some j, { s1 with jobs := s1.jobs ++ [j] }, c1 + 1)

/-- The `for action in job_request.requested_actions` loop of
`create_jobs_with_project_file`, threading `new_job_scheduled`.  A `None`
returned at the top level would be a Python `AttributeError` (it cannot
happen: requested actions are always in the force set). -/
def add_requested_jobs (cfg : Config) (ext : Externals) (req : JobRequest)
    (project : Project) (force_run_actions : Option (List String)) (fuel : Nat) :
    Store → Nat → Bool → List String →
      Except CreateJobsError (Bool × Store × Nat)
  | s, ctr, sched, [] => .ok (sched, s, ctr)
  | s, ctr, sched, a :: rest => do
    let (rj, s1, c1) ←
      recursively_add_jobs cfg ext req project force_run_actions fuel s ctr a
    match rj with
    | some j =>
      add_requested_jobs cfg ext req project force_run_actions fuel s1 c1
        (sched || (j.job_request_id == req.id)) rest
    | none => .error .internalError

/-- `create_jobs_with_project_file`: parse the project, insert the
`SavedJobRequest` and expand every requested action inside one transaction;
any error rolls the transaction back (no partial store escapes). -/
def create_jobs_with_project_file (cfg : Config) (ext : Externals)
    (req : JobRequest) (project_file : String) (fuel : Nat) (s : Store)
    (ctr : Nat) : Except CreateJobsError (Store × Nat) := do
  let project ← ext.parse_and_validate_project_file project_file
  let force_run_actions : Option (List String) :=
    if req.force_run_dependencies then none else some req.requested_actions
  let s0 : Store :=
    { s with job_requests := s.job_requests ++ [⟨req.id, req.original⟩] }
  let (sched, s1, c1) ← add_requested_jobs cfg ext req project
    force_run_actions fuel s0 ctr false req.requested_actions
  if sched then .ok (s1, c1)
  else .error (.jobRequestError "All requested actions were already scheduled to run")

/-- `create_jobs`: validate, resolve the commit, load the project file and
hand over to `create_jobs_with_project_file`. -/
def create_jobs (cfg : Config) (ext : Externals) (req : JobRequest)
    (fuel : Nat) (s : Store) (ctr : Nat) :
    Except CreateJobsError (Store × Nat) := do
  validate_job_request cfg req
  let commit ← match req.commit with
    | some c =>
      if c = "" then ext.get_sha_from_remote_ref req.repo_url req.branch
      else .ok c
    | none => ext.get_sha_from_remote_ref req.repo_url req.branch
  let req := { req with commit := some commit }
  let project_file ←
    if cfg.local_run_mode then ext.read_local_project_file req.repo_url
    else ext.read_file_from_repo req.repo_url commit
  create_jobs_with_project_file cfg ext req project_file fuel s ctr

/-- `create_failed_job`: persist the `SavedJobRequest` together with a
single synthetic `Failed` job carrying the error details. -/
def create_failed_job (ext : Externals) (req : JobRequest)
    (e : CreateJobsError) (s : Store) (ctr : Nat) : Store × Nat :=
  ({ jobs := s.jobs ++ [{
        id := new_id ctr, job_request_id := req.id, status := State.failed,
        repo_url := req.repo_url, commit := req.commit,
        workspace := req.workspace, action := "",
        status_message := some (e.type_name ++ ": " ++ e.text),
        created_at := some ext.now, completed_at := some ext.now }],
     job_requests := s.job_requests ++ [⟨req.id, req.original⟩] }, ctr + 1)

/-- The spec's invariant (c): each `(workspace, action)` pair has at most
one non-terminal (`Pending` or `Running`) job. -/
def store_invariant (s : Store) : Prop :=
  ∀ w a, (active_jobs_for s w a).length ≤ 1

/-- No non-terminal job exists for `(w, a)`. -/
def no_active (s : Store) (w a : String) : Prop :=
  active_jobs_for s w a = []

theorem active_jobs_for_insert (s : Store) (j : Job) (w a : String) :
    active_jobs_for { s with jobs := s.jobs ++ [j] } w a =
      active_jobs_for s w a ++
        (if j.workspace == w && j.action == a &&
            (j.status == State.pending || j.status == State.running)
         then [j] else []) := by
  unfold active_jobs_for
  rw [List.filter_append]
  congr 1
  by_cases hp : (j.workspace == w && j.action == a &&
      (j.status == State.pending || j.status == State.running)) = true
  · simp [List.filter_cons, hp]
  · simp [List.filter_cons, hp]

theorem store_invariant_insert (s : Store) (j : Job)
    (hinv : store_invariant s) (hna : no_active s j.workspace j.action) :
    store_invariant { s with jobs := s.jobs ++ [j] } := by
  intro w a
  rw [active_jobs_for_insert]
  by_cases hp : (j.workspace == w && j.action == a &&
      (j.status == State.pending || j.status == State.running)) = true
  · rw [if_pos hp]
    simp only [Bool.and_eq_true, beq_iff_eq] at hp
    obtain ⟨⟨hw1, hw2⟩, _⟩ := hp
    subst hw1
    subst hw2
    rw [hna]
    simp
  · rw [if_neg hp]
    simpa using hinv w a

theorem no_active_insert (s : Store) (j : Job) (w f : String)
    (hna : no_active s w f) (hne : ¬(j.workspace = w ∧ j.action = f)) :
    no_active { s with jobs := s.jobs ++ [j] } w f := by
  unfold no_active
  rw [active_jobs_for_insert, hna]
  by_cases hp : (j.workspace == w && j.action == f &&
      (j.status == State.pending || j.status == State.running)) = true
  · simp only [Bool.and_eq_true, beq_iff_eq] at hp
    exact absurd ⟨hp.1.1, hp.1.2⟩ hne
  · rw [if_neg hp]
    rfl

theorem store_invariant_of_short (s : Store) (h : s.jobs.length ≤ 1) :
    store_invariant s :=
  fun _ _ => le_trans (List.length_filter_le _ _) h

/-- Expansion of a needs list preserves the store invariant and keeps every
in-flight ancestor action (the set `F`, each of strictly greater rank)
without an active job, given that one recursion level deeper does. -/
theorem add_needed_jobs_invariant (cfg : Config) (ext : Externals)
    (req : JobRequest) (project : Project) (force : Option (List String))
    (rank : String → Nat) (fuel : Nat)
    (hrec : ∀ (s : Store) (ctr : Nat) (a : String) (F : List String) res,
      store_invariant s →
      (∀ f ∈ F, no_active s req.workspace f ∧ rank a < rank f) →
      recursively_add_jobs cfg ext req project force fuel s ctr a = .ok res →
      store_invariant res.2.1 ∧ ∀ f ∈ F, no_active res.2.1 req.workspace f) :
    ∀ needs s ctr (F : List String) res, store_invariant s →
      (∀ f ∈ F, no_active s req.workspace f) →
      (∀ m ∈ needs, ∀ f ∈ F, rank m < rank f) →
      add_needed_jobs (recursively_add_jobs cfg ext req project force fuel)
        s ctr needs = .ok res →
      store_invariant res.2.1 ∧ ∀ f ∈ F, no_active res.2.1 req.workspace f := by
  intro needs
  induction needs with
  | nil =>
    intro s ctr F res hinv hF _ hok
    simp only [add_needed_jobs] at hok
    cases hok
    exact ⟨hinv, hF⟩
  | cons m rest ih =>
    intro s ctr F res hinv hF hrank hok
    simp only [add_needed_jobs] at hok
    cases hr : recursively_add_jobs cfg ext req project force fuel s ctr m with
    | error e =>
      rw [hr] at hok
      simp [bind, Except.bind] at hok
    | ok trip =>
      obtain ⟨rj, s1, c1⟩ := trip
      rw [hr] at hok
      simp only [bind, Except.bind] at hok
      have h1 := hrec s ctr m F (rj, s1, c1) hinv
        (fun f hf => ⟨hF f hf, hrank m (List.mem_cons_self m rest) f hf⟩) hr
      cases ha : add_needed_jobs
          (recursively_add_jobs cfg ext req project force fuel) s1 c1 rest with
      | error e =>
        rw [ha] at hok
        simp at hok
      | ok trip2 =>
        obtain ⟨ids, s2, c2⟩ := trip2
        rw [ha] at hok
        have h2 := ih s1 c1 F (ids, s2, c2) h1.1 h1.2
          (fun m' hm' f hf => hrank m' (List.mem_cons_of_mem _ hm') f hf) ha
        cases hok
        exact h2

/-- The store invariant is preserved by `recursively_add_jobs`, and every
in-flight ancestor action stays without an active job.  `rank` is a
topological rank of the project's needs graph (the spec requires acyclic
projects; cyclic recursion never returns normally). -/
theorem recursively_add_jobs_preserves_invariant (cfg : Config)
    (ext : Externals) (req : JobRequest) (project : Project)
    (force : Option (List String)) (rank : String → Nat)
    (hrank : ∀ a spec, project a = some spec →
      ∀ m ∈ spec.needs, rank m < rank a) :
    ∀ fuel s ctr a (F : List String) res, store_invariant s →
      (∀ f ∈ F, no_active s req.workspace f ∧ rank a < rank f) →
      recursively_add_jobs cfg ext req project force fuel s ctr a = .ok res →
      store_invariant res.2.1 ∧ ∀ f ∈ F, no_active res.2.1 req.workspace f := by
  intro fuel
  induction fuel with
  | zero =>
    intro s ctr a F res _ _ hok
    simp [recursively_add_jobs] at hok
  | succ n ih =>
    intro s ctr a F res hinv hF hok
    simp only [recursively_add_jobs] at hok
    cases hact : active_jobs_for s req.workspace a with
    | cons j tl =>
      rw [hact] at hok
      cases hok
      exact ⟨hinv, fun f hf => (hF f hf).1⟩
    | nil =>
      rw [hact] at hok
      dsimp only at hok
      split at hok
      · cases hok
        exact ⟨hinv, fun f hf => (hF f hf).1⟩
      · cases hok
      · cases hspec : get_action_specification project a with
        | error e =>
          rw [hspec] at hok
          simp [bind, Except.bind] at hok
        | ok spec =>
          rw [hspec] at hok
          simp only [bind, Except.bind] at hok
          have hproj : project a = some spec := by
            unfold get_action_specification at hspec
            cases hpa : project a with
            | none => rw [hpa] at hspec; cases hspec
            | some sp => rw [hpa] at hspec; cases hspec; rfl
          cases hadd : add_needed_jobs
              (recursively_add_jobs cfg ext req project force n) s ctr
              spec.needs with
          | error e =>
            rw [hadd] at hok
            simp at hok
          | ok trip =>
            obtain ⟨ids, s1, c1⟩ := trip
            rw [hadd] at hok
            have hF'na : ∀ f ∈ a :: F, no_active s req.workspace f := by
              intro f hf
              rcases List.mem_cons.mp hf with hfa | hfF
              · subst hfa
                exact hact
              · exact (hF f hfF).1
            have hrankcond : ∀ m ∈ spec.needs, ∀ f ∈ a :: F,
                rank m < rank f := by
              intro m hm f hf
              rcases List.mem_cons.mp hf with hfa | hfF
              · subst hfa
                exact hrank f spec hproj m hm
              · exact Nat.lt_trans (hrank a spec hproj m hm) (hF f hfF).2
            have h1 := add_needed_jobs_invariant cfg ext req project force
              rank n ih spec.needs s ctr (a :: F) (ids, s1, c1) hinv hF'na
              hrankcond hadd
            cases hok
            constructor
            · exact store_invariant_insert s1 _ h1.1
                (h1.2 a (List.mem_cons_self a F))
            · intro f hf
              apply no_active_insert s1 _ req.workspace f
                (h1.2 f (List.mem_cons_of_mem _ hf))
              rintro ⟨_, haf⟩
              have hlt := (hF f hf).2
              have haf' : a = f := haf
              rw [haf'] at hlt
              exact Nat.lt_irrefl _ hlt

/-- `create_or_update_jobs`: do nothing when jobs for the request already
exist; otherwise run `create_jobs`, projecting `GitError`,
`ProjectValidationError` and `JobRequestError` into a single failed job. -/
def create_or_update_jobs (cfg : Config) (ext : Externals) (req : JobRequest)
    (fuel : Nat) (s : Store) (ctr : Nat) :
    Except CreateJobsError (Store × Nat) :=
  if related_jobs_exist s req then .ok (s, ctr)
  else
    match create_jobs cfg ext req fuel s ctr with
    | .ok r => .ok r
    | .error e =>
      if e.is_caught then .ok (create_failed_job ext req e s ctr)
      else .error e

end JR

/-- C2: `handle_pending_job` never moves a `Pending` job to `Running` while
some job referenced in its `wait_for_job_ids` is not `Completed`, and if a
referenced job is `Failed` it instead marks the waiting job `Failed` with a
status message containing "Not starting as dependency failed". -/
theorem handle_pending_job_gates_on_dependencies
    (db : V2.Db) (job j' : V2.Job) (mw : Nat) (start : V2.StartResult)
    (now : String) (hmem : j' ∈ db) (hid : j'.id ∈ job.wait_for_job_ids)
    (hnc : j'.status ≠ V2.State.completed)
    (hpend : ∀ r ∈ db, r.id = job.id → r.status = V2.State.pending) :
    (∀ r ∈ V2.handle_pending_job db job mw start now, r.id = job.id →
      r.status ≠ V2.State.running) ∧
    (j'.status = V2.State.failed →
      ∀ r ∈ V2.handle_pending_job db job mw start now, r.id = job.id →
        r.status = V2.State.failed ∧
        r.status_message = some "JobError: Not starting as dependency failed") := by
  have hstmem := V2.status_mem_awaited db job j' hmem hid
  unfold V2.handle_pending_job
  dsimp only
  by_cases hfail :
      (V2.get_states_of_awaited_jobs db job).contains V2.State.failed = true
  · rw [if_pos hfail]
    constructor
    · intro r hr hid'
      have hspec := V2.mark_job_as_failed_spec db job _ r hr hid'
      rw [hspec.1]
      decide
    · intro _ r hr hid'
      exact V2.mark_job_as_failed_spec db job _ r hr hid'
  · have hnall :
        ¬ ((V2.get_states_of_awaited_jobs db job).all
            (· == V2.State.completed) = true) :=
      fun hall => hnc (by simpa using List.all_eq_true.mp hall _ hstmem)
    rw [if_neg hfail, if_neg hnall]
    constructor
    · intro r hr hid'
      obtain ⟨r₀, h₀, hst, hid₀, _⟩ := V2.mem_log_status _ _ _ _ _ r hr
      rw [hst, hpend r₀ h₀ (hid₀.symm.trans hid')]
      decide
    · intro hjf
      rw [hjf] at hstmem
      exact absurd (by simpa using hstmem) hfail

/-- Witness for C2: a concrete two-row store whose pending job waits on a
failed dependency. -/
theorem handle_pending_job_gates_on_dependencies_witness :
    (∀ r ∈ V2.handle_pending_job
        [⟨"a", V2.State.failed, none, [], "w", "a"⟩,
         ⟨"b", V2.State.pending, none, ["a"], "w", "b"⟩]
        ⟨"b", V2.State.pending, none, ["a"], "w", "b"⟩ 1 V2.StartResult.ok "t",
      r.id = "b" → r.status ≠ V2.State.running) ∧
    (∀ r ∈ V2.handle_pending_job
        [⟨"a", V2.State.failed, none, [], "w", "a"⟩,
         ⟨"b", V2.State.pending, none, ["a"], "w", "b"⟩]
        ⟨"b", V2.State.pending, none, ["a"], "w", "b"⟩ 1 V2.StartResult.ok "t",
      r.id = "b" →
        r.status = V2.State.failed ∧
        r.status_message = some "JobError: Not starting as dependency failed") := by
  have h := handle_pending_job_gates_on_dependencies
    [⟨"a", V2.State.failed, none, [], "w", "a"⟩,
     ⟨"b", V2.State.pending, none, ["a"], "w", "b"⟩]
    ⟨"b", V2.State.pending, none, ["a"], "w", "b"⟩
    ⟨"a", V2.State.failed, none, [], "w", "a"⟩ 1 V2.StartResult.ok "t"
    (by simp) (by simp) (by decide)
    (by
      intro r hr hid
      simp only [List.mem_cons, List.not_mem_nil, or_false] at hr
      rcases hr with hr | hr <;> subst hr <;> simp_all)
  exact ⟨h.1, h.2 rfl⟩

/-- C3: `count(status=Running) ≤ MAX_WORKERS` is preserved by every
individual job transition of the run loop (`handle_pending_job` and
`handle_running_job`), because a job is started only when
`count_where(status=Running) < MAX_WORKERS`; when the capacity check fails
the statuses are left untouched (the job stays `Pending`, only its status
message is logged). -/
theorem run_loop_worker_capacity
    (db : V2.Db) (job : V2.Job) (mw : Nat) (start : V2.StartResult)
    (now : String) (still : Bool) (fr : V2.FinaliseResult)
    (hnd : (db.map (·.id)).Nodup)
    (hle : V2.count_where_running db ≤ mw) :
    V2.count_where_running (V2.handle_pending_job db job mw start now) ≤ mw ∧
    V2.count_where_running (V2.handle_running_job db job still fr now) ≤ mw ∧
    ((V2.get_states_of_awaited_jobs db job).all (· == V2.State.completed) = true →
      V2.job_running_capacity_available db mw = false →
      (V2.handle_pending_job db job mw start now).map (·.status) =
        db.map (·.status)) := by
  refine ⟨?_, ?_, ?_⟩
  · unfold V2.handle_pending_job
    dsimp only
    by_cases hfail :
        (V2.get_states_of_awaited_jobs db job).contains V2.State.failed = true
    · rw [if_pos hfail]
      exact le_trans (V2.count_mark_failed_le db job _) hle
    · by_cases hall :
          (V2.get_states_of_awaited_jobs db job).all (· == V2.State.completed) = true
      · rw [if_neg hfail, if_pos hall]
        by_cases hcap : V2.job_running_capacity_available db mw = true
        · have hncap : (!V2.job_running_capacity_available db mw) = false := by
            simp [hcap]
          rw [hncap]
          simp only [Bool.false_eq_true, if_false]
          have hlogc := V2.count_log_status_eq db job "Starting" false now
          cases start with
          | jobError e =>
            refine le_trans (V2.count_mark_failed_le _ job e) ?_
            rw [hlogc]
            exact hle
          | ok =>
            have hcap' : V2.count_where_running db < mw := by
              simpa [V2.job_running_capacity_available] using hcap
            have hndlog :
                ((V2.log_status db job "Starting" false now).map (·.id)).Nodup := by
              rw [V2.log_status_map_id]
              exact hnd
            refine le_trans (V2.count_mark_running_le _ job hndlog) ?_
            rw [hlogc]
            omega
        · have hncap : (!V2.job_running_capacity_available db mw) = true := by
            simp only [Bool.not_eq_true'] at hcap ⊢
            simpa using hcap
          rw [hncap, if_pos rfl]
          rw [V2.count_log_status_eq]
          exact hle
      · rw [if_neg hfail, if_neg hall]
        rw [V2.count_log_status_eq]
        exact hle
  · unfold V2.handle_running_job
    by_cases hstill : still = true
    · rw [if_pos hstill]
      rw [V2.count_log_status_eq]
      exact hle
    · rw [if_neg hstill]
      cases fr with
      | jobError e => exact le_trans (V2.count_mark_failed_le db job e) hle
      | ok => exact le_trans (V2.count_mark_completed_le db job) hle
  · intro hall hcapf
    unfold V2.handle_pending_job
    dsimp only
    have hfail :
        ¬ ((V2.get_states_of_awaited_jobs db job).contains V2.State.failed = true) := by
      intro hc
      have hmem : V2.State.failed ∈ V2.get_states_of_awaited_jobs db job := by
        simpa using hc
      have := List.all_eq_true.mp hall _ hmem
      simp at this
    rw [if_neg hfail, if_pos hall]
    have hncap : (!V2.job_running_capacity_available db mw) = true := by
      rw [hcapf]
      rfl
    rw [hncap, if_pos rfl]
    exact V2.log_status_map_status db job "Waiting for available workers" true now

/-- Witness for C3 on a concrete store: one running job, one pending job and
`MAX_WORKERS = 1`. -/
theorem run_loop_worker_capacity_witness :
    V2.count_where_running
      (V2.handle_pending_job
        [⟨"a", V2.State.running, none, [], "w", "a"⟩,
         ⟨"b", V2.State.pending, none, [], "w", "b"⟩]
        ⟨"b", V2.State.pending, none, [], "w", "b"⟩ 1 V2.StartResult.ok "t") ≤ 1 ∧
    (V2.handle_pending_job
        [⟨"a", V2.State.running, none, [], "w", "a"⟩,
         ⟨"b", V2.State.pending, none, [], "w", "b"⟩]
        ⟨"b", V2.State.pending, none, [], "w", "b"⟩ 1 V2.StartResult.ok "t").map
      (·.status) =
      [V2.State.running, V2.State.pending] := by
  have h := run_loop_worker_capacity
    [⟨"a", V2.State.running, none, [], "w", "a"⟩,
     ⟨"b", V2.State.pending, none, [], "w", "b"⟩]
    ⟨"b", V2.State.pending, none, [], "w", "b"⟩ 1 V2.StartResult.ok "t"
    true V2.FinaliseResult.ok (by decide) (by decide)
  refine ⟨h.1, ?_⟩
  have h3 := h.2.2 (by decide) (by decide)
  rw [h3]
  rfl

/-- C6: `finalise_job` classifies errors with exit-code precedence — a
non-zero exit code raises `JobError("Job exited with an error code")` even
when patterns are unmatched, otherwise unmatched patterns raise
`JobError("No outputs found matching: <comma-joined>")` — and any such error
is raised only after the log file, `metadata.json` and all matched outputs
have been written. -/
theorem finalise_job_error_classification
    (job : JR.Job) (m : JR.ContainerMetadata)
    (all_matches : String → List String) (ws : JR.WorkspaceFS)
    (medium : Bool) :
    (m.exit_code ≠ 0 →
      (JR.finalise_job job (some m) all_matches ws medium).2 =
        some "Job exited with an error code") ∧
    (m.exit_code = 0 →
      (JR.find_matching_outputs job.output_spec all_matches).2 ≠ [] →
      (JR.finalise_job job (some m) all_matches ws medium).2 =
        some ("No outputs found matching: " ++
          String.intercalate ", "
            (JR.find_matching_outputs job.output_spec all_matches).2)) ∧
    ((JR.finalise_job job (some m) all_matches ws medium).2.isSome = true →
      JR.FEvent.write_log_file ∈
        (JR.finalise_job job (some m) all_matches ws medium).1 ∧
      JR.FEvent.write_metadata_json ∈
        (JR.finalise_job job (some m) all_matches ws medium).1 ∧
      ∀ p ∈ (JR.find_matching_outputs job.output_spec all_matches).1,
        JR.FEvent.extract_output p.1 ∈
          (JR.finalise_job job (some m) all_matches ws medium).1) := by
  unfold JR.finalise_job
  dsimp only
  refine ⟨?_, ?_, ?_⟩
  · intro h
    have hb : (m.exit_code != 0) = true := by simpa using h
    rw [if_pos hb]
  · intro h0 hun
    have hb : (m.exit_code != 0) = false := by simpa using h0
    have hu : (!(JR.find_matching_outputs job.output_spec all_matches).2.isEmpty) = true := by
      simpa [List.isEmpty_iff] using hun
    rw [hb]
    simp only [Bool.false_eq_true, if_false]
    rw [if_pos hu]
  · intro _
    refine ⟨?_, ?_, ?_⟩
    · exact List.mem_append_left _ (List.mem_append_left _
        (List.mem_append_left _ (List.mem_append_left _ (by simp))))
    · exact List.mem_append_left _ (List.mem_append_left _
        (List.mem_append_left _ (List.mem_append_left _ (by simp))))
    · intro p hp
      exact List.mem_append_left _ (List.mem_append_left _
        (List.mem_append_left _ (List.mem_append_right _
          (List.mem_map_of_mem _ hp))))

/-- Witness for C6: a job with one unmatched pattern whose container exited
with code 1 is classified as "Job exited with an error code". -/
theorem finalise_job_error_classification_witness :
    (JR.finalise_job
        { id := "j", job_request_id := "r", status := JR.State.running,
          action := "a",
          output_spec := [("highly_sensitive", [("csv", "out/*.csv")])] }
        (some ⟨"img", 1, []⟩) (fun _ => []) ⟨none, fun _ => false⟩ true).2 =
      some "Job exited with an error code" :=
  (finalise_job_error_classification
      { id := "j", job_request_id := "r", status := JR.State.running,
        action := "a",
        output_spec := [("highly_sensitive", [("csv", "out/*.csv")])] }
      ⟨"img", 1, []⟩ (fun _ => []) ⟨none, fun _ => false⟩ true).1 (by decide)

/-- C9: the write of the high-privacy manifest is the final write of
`finalise_job`: the event trace ends with it, it occurs nowhere earlier, and
the log copy, every output extraction, the stale-output deletions in both
workspaces, and the complete medium-privacy mirror all happen strictly
before it. -/
theorem finalise_job_manifest_write_is_last
    (job : JR.Job) (m : JR.ContainerMetadata)
    (all_matches : String → List String) (ws : JR.WorkspaceFS)
    (medium : Bool) :
    ∃ pre,
      (JR.finalise_job job (some m) all_matches ws medium).1 =
        pre ++ [JR.FEvent.write_manifest JR.WsDir.high] ∧
      JR.FEvent.write_manifest JR.WsDir.high ∉ pre ∧
      JR.FEvent.write_log_file ∈ pre ∧
      JR.FEvent.copy_log_to_workspace ∈ pre ∧
      (∀ p ∈ (JR.find_matching_outputs job.output_spec all_matches).1,
        JR.FEvent.extract_output p.1 ∈ pre) ∧
      (∀ f ∈ JR.files_to_remove ws job.action
          (JR.find_matching_outputs job.output_spec all_matches).1,
        JR.FEvent.delete_file JR.WsDir.high f ∈ pre ∧
        (medium = true → JR.FEvent.delete_file JR.WsDir.medium f ∈ pre)) ∧
      (medium = true →
        JR.FEvent.copy_log_to_medium ∈ pre ∧
        JR.FEvent.write_manifest JR.WsDir.medium ∈ pre ∧
        ∀ p ∈ (JR.find_matching_outputs job.output_spec all_matches).1.filter
            (fun p => p.2 == "moderately_sensitive"),
          JR.FEvent.copy_medium_output p.1 ∈ pre) := by
  unfold JR.finalise_job
  dsimp only
  refine ⟨_, rfl, ?_, ?_, ?_, ?_, ?_, ?_⟩
  · by_cases hm : medium = true
    · rw [if_pos hm]
      simp
    · rw [if_neg hm]
      simp
  · exact List.mem_append_left _ (List.mem_append_left _
      (List.mem_append_left _ (by simp)))
  · exact List.mem_append_left _ (List.mem_append_left _
      (List.mem_append_left _ (by simp)))
  · intro p hp
    exact List.mem_append_left _ (List.mem_append_left _
      (List.mem_append_right _ (List.mem_map_of_mem _ hp)))
  · intro f hf
    constructor
    · exact List.mem_append_left _
        (List.mem_append_right _ (List.mem_map_of_mem _ hf))
    · intro hm
      rw [if_pos hm]
      exact List.mem_append_right _ (List.mem_append_left _
        (List.mem_append_right _ (List.mem_map_of_mem _ hf)))
  · intro hm
    rw [if_pos hm]
    refine ⟨?_, ?_, ?_⟩
    · exact List.mem_append_right _ (List.mem_append_left _
        (List.mem_append_left _ (List.mem_append_left _ (by simp))))
    · exact List.mem_append_right _ (List.mem_append_right _ (by simp))
    · intro p hp
      exact List.mem_append_right _ (List.mem_append_left _
        (List.mem_append_left _ (List.mem_append_right _
          (List.mem_map_of_mem _ hp))))

/-- C4: when the store already holds a `Pending` or `Running` job for
`(workspace, action)`, `recursively_add_jobs` returns that job unchanged and
inserts no new row; and expansion preserves the invariant that each
`(workspace, action)` pair has at most one non-terminal job (stated for
projects whose needs graph admits a rank function, i.e. is acyclic — on a
cycle the recursion raises `RecursionError` instead of returning). -/
theorem recursively_add_jobs_dedup_and_invariant
    (cfg : JR.Config) (ext : JR.Externals) (req : JR.JobRequest)
    (project : JR.Project) (force : Option (List String))
    (rank : String → Nat) (fuel : Nat) (s : JR.Store) (ctr : Nat)
    (a : String) :
    (∀ j rest, JR.active_jobs_for s req.workspace a = j :: rest →
      JR.recursively_add_jobs cfg ext req project force (fuel + 1) s ctr a =
        .ok (some j, s, ctr)) ∧
    ((∀ a' spec, project a' = some spec →
        ∀ m ∈ spec.needs, rank m < rank a') →
      JR.store_invariant s →
      ∀ res,
        JR.recursively_add_jobs cfg ext req project force fuel s ctr a =
          .ok res →
        JR.store_invariant res.2.1) := by
  constructor
  · intro j rest hact
    simp only [JR.recursively_add_jobs]
    rw [hact]
  · intro hrank hinv res hok
    exact (JR.recursively_add_jobs_preserves_invariant cfg ext req project
      force rank hrank fuel s ctr a [] res hinv (by simp) hok).1

/-- A sample active job used by the C4 witness. -/
def sample_job : JR.Job :=
  { id := "x", job_request_id := "q", status := JR.State.pending,
    workspace := "w", action := "a" }

/-- Witness for C4: a store holding one pending job for `("w", "a")` makes
`recursively_add_jobs` return it unchanged, and the invariant holds after. -/
theorem recursively_add_jobs_dedup_and_invariant_witness :
    JR.recursively_add_jobs {} sample_externals { id := "r", workspace := "w" }
      (fun _ => Option.none) Option.none 1 ⟨[sample_job], []⟩ 0 "a" =
      .ok (some sample_job, ⟨[sample_job], []⟩, 0) ∧
    JR.store_invariant ⟨[sample_job], []⟩ := by
  have h1 := (recursively_add_jobs_dedup_and_invariant {} sample_externals
    { id := "r", workspace := "w" } (fun _ => Option.none) Option.none
    (fun _ => 0) 0 ⟨[sample_job], []⟩ 0 "a").1 sample_job [] rfl
  refine ⟨h1, ?_⟩
  exact (recursively_add_jobs_dedup_and_invariant {} sample_externals
    { id := "r", workspace := "w" } (fun _ => Option.none) Option.none
    (fun _ => 0) 1 ⟨[sample_job], []⟩ 0 "a").2
    (fun a' spec hps => nomatch hps)
    (JR.store_invariant_of_short _ (by decide))
    (some sample_job, ⟨[sample_job], []⟩, 0) h1

/-- A concrete set of external collaborators for witnesses: git and the
project parser succeed trivially and the workspace filesystem is empty. -/
def sample_externals : JR.Externals :=
  { get_sha_from_remote_ref := fun _ _ => .ok "sha",
    read_file_from_repo := fun _ _ => .ok "",
    read_local_project_file := fun _ => .ok "",
    parse_and_validate_project_file := fun _ => .ok (fun _ => Option.none),
    workspace_fs := fun _ => ⟨Option.none, fun _ => false⟩,
    now := 0 }

/-- C1: when processing a job request raises a git error, a
`ProjectValidationError` or a `JobRequestError`, `create_or_update_jobs`
swallows the exception and persists the `SavedJobRequest` together with
exactly one synthetic job with status `Failed`, empty `action` and
`status_message = "<type name>: <text>"`; for workspace name `bad/name` in
non-local mode the message is exactly
`JobRequestError: Invalid workspace name (allowed are alphanumeric, dash and
underscore)`. -/
theorem create_or_update_jobs_failed_request_projection
    (cfg : JR.Config) (ext : JR.Externals) (req : JR.JobRequest)
    (fuel : Nat) (s : JR.Store) (ctr : Nat) (e : JR.CreateJobsError)
    (hrel : JR.related_jobs_exist s req = false)
    (herr : JR.create_jobs cfg ext req fuel s ctr = .error e)
    (hcaught : e.is_caught = true) :
    JR.create_or_update_jobs cfg ext req fuel s ctr =
      .ok (⟨s.jobs ++ [{
          id := JR.new_id ctr, job_request_id := req.id,
          status := JR.State.failed, repo_url := req.repo_url,
          commit := req.commit, workspace := req.workspace, action := "",
          status_message := some (e.type_name ++ ": " ++ e.text),
          created_at := some ext.now, completed_at := some ext.now }],
        s.job_requests ++ [⟨req.id, req.original⟩]⟩, ctr + 1) ∧
    (req.workspace = "bad/name" → cfg.local_run_mode = false →
      e = .jobRequestError
        "Invalid workspace name (allowed are alphanumeric, dash and underscore)") := by
  constructor
  · unfold JR.create_or_update_jobs
    rw [hrel]
    simp only [Bool.false_eq_true, if_false]
    rw [herr]
    simp only [hcaught, if_pos]
    rfl
  · intro hws hlocal
    have hval : JR.validate_job_request cfg req =
        .error (.jobRequestError
          "Invalid workspace name (allowed are alphanumeric, dash and underscore)") := by
      unfold JR.validate_job_request
      rw [hws, hlocal]
      rfl
    have hcj : JR.create_jobs cfg ext req fuel s ctr =
        .error (.jobRequestError
          "Invalid workspace name (allowed are alphanumeric, dash and underscore)") := by
      unfold JR.create_jobs
      rw [hval]
      rfl
    have h2 : (Except.error e : Except JR.CreateJobsError (JR.Store × Nat)) =
        .error (.jobRequestError
          "Invalid workspace name (allowed are alphanumeric, dash and underscore)") := by
      rw [← herr, hcj]
    injection h2 with h3

/-- Witness for C1 at an empty store and the workspace name `bad/name`. -/
theorem create_or_update_jobs_failed_request_projection_witness :
    JR.create_or_update_jobs {} sample_externals
      { id := "r1", workspace := "bad/name", original := "orig" } 1 ⟨[], []⟩ 0 =
      .ok (⟨[{
          id := JR.new_id 0, job_request_id := "r1",
          status := JR.State.failed, repo_url := "", commit := none,
          workspace := "bad/name", action := "",
          status_message := some ("JobRequestError" ++ ": " ++
            "Invalid workspace name (allowed are alphanumeric, dash and underscore)"),
          created_at := some 0, completed_at := some 0 }],
        [⟨"r1", "orig"⟩]⟩, 1) :=
  (create_or_update_jobs_failed_request_projection {} sample_externals
    { id := "r1", workspace := "bad/name", original := "orig" } 1 ⟨[], []⟩ 0
    (.jobRequestError
      "Invalid workspace name (allowed are alphanumeric, dash and underscore)")
    rfl rfl rfl).1

/-- C8 counterexample: with patterns `out/*.csv` and `out/*.csv2` and a
volume containing only `out/a.csv2`, the file is listed under `out/*.csv`
although it does not match that pattern in full — Python's `re.match`
anchors only at the start, so `out/[^/]*\.csv` accepts the path by matching
the proper prefix `out/a.csv`. -/
theorem glob_volume_files_counterexample :
    JR.glob_volume_files ["out/*.csv", "out/*.csv2"] ["out/a.csv2"] =
      [("out/*.csv", ["out/a.csv2"]), ("out/*.csv2", ["out/a.csv2"])] ∧
    JR.glob_full_match "out/*.csv" "out/a.csv2" = false := by
  constructor
  · rfl
  · rfl

/-- C8 (amended): `glob_volume_files` returns a mapping defined on exactly
the given patterns; each pattern maps to the sorted list of those files that
fully match at least one of the given patterns (the `find -regex` whole-path
filter) and whose translated regex (`*` → `[^/]*`, other characters literal)
matches a prefix of the path (Python `re.match`); in particular every file
that fully matches a pattern appears under it. -/
theorem glob_volume_files_amended (patterns volume_files : List String) :
    ((JR.glob_volume_files patterns volume_files).map Prod.fst = patterns) ∧
    (∀ p l, (p, l) ∈ JR.glob_volume_files patterns volume_files →
      List.Sorted (· ≤ ·) l ∧
      ∀ f, f ∈ l ↔ (f ∈ volume_files ∧
        (∃ q ∈ patterns, JR.glob_full_match q f = true) ∧
        JR.glob_regex_match p f = true)) ∧
    (∀ p f, p ∈ patterns → f ∈ volume_files →
      JR.glob_full_match p f = true →
      ∀ l, (p, l) ∈ JR.glob_volume_files patterns volume_files → f ∈ l) := by
  have h2 : ∀ p l, (p, l) ∈ JR.glob_volume_files patterns volume_files →
      List.Sorted (· ≤ ·) l ∧
      ∀ f, f ∈ l ↔ (f ∈ volume_files ∧
        (∃ q ∈ patterns, JR.glob_full_match q f = true) ∧
        JR.glob_regex_match p f = true) := by
    intro p l hmem
    unfold JR.glob_volume_files at hmem
    simp only [List.mem_map, Prod.mk.injEq] at hmem
    obtain ⟨q, hq, hqp, hl⟩ := hmem
    subst hqp
    subst hl
    constructor
    · exact (List.sorted_insertionSort _ _).filter _
    · intro f
      rw [List.mem_filter, (List.perm_insertionSort _ _).mem_iff,
        List.mem_filter, List.any_eq_true]
      constructor
      · rintro ⟨⟨hvf, q', hq', hfull⟩, hre⟩
        exact ⟨hvf, ⟨q', hq', hfull⟩, hre⟩
      · rintro ⟨hvf, ⟨q', hq', hfull⟩, hre⟩
        exact ⟨⟨hvf, q', hq', hfull⟩, hre⟩
  refine ⟨?_, h2, ?_⟩
  · unfold JR.glob_volume_files
    simp only [List.map_map]
    show List.map (fun p => p) patterns = patterns
    simp
  · intro p f hp hf hfull l hl
    exact ((h2 p l hl).2 f).mpr
      ⟨hf, ⟨p, hp, hfull⟩, JR.glob_full_match_imp_regex_match p f hfull⟩

/-- C5: `action_has_successful_outputs` returns `True` exactly when the
manifest records the action with a successful status and every file the
manifest attributes to the action exists on disk; `False` exactly when the
manifest records the action with a non-successful status; and `None` exactly
when the manifest has no entry for the action, or the status is successful
but some attributed file is missing from disk. -/
theorem action_has_successful_outputs_trichotomy (fs : JR.WorkspaceFS)
    (action : String) :
    (JR.action_has_successful_outputs fs action = some true ↔
      (∃ e, JR.alist_get (JR.read_manifest_file fs.manifest).actions action =
          some e ∧ e.status = JR.State.succeeded.value) ∧
      (∀ f d, (f, d) ∈ (JR.read_manifest_file fs.manifest).files →
        d.created_by_action = action → fs.on_disk f = true)) ∧
    (JR.action_has_successful_outputs fs action = some false ↔
      (∃ e, JR.alist_get (JR.read_manifest_file fs.manifest).actions action =
          some e ∧ e.status ≠ JR.State.succeeded.value)) ∧
    (JR.action_has_successful_outputs fs action = none ↔
      (JR.alist_get (JR.read_manifest_file fs.manifest).actions action = none ∨
        (∃ e, JR.alist_get (JR.read_manifest_file fs.manifest).actions action =
            some e ∧ e.status = JR.State.succeeded.value ∧
          ∃ f d, (f, d) ∈ (JR.read_manifest_file fs.manifest).files ∧
            d.created_by_action = action ∧ fs.on_disk f = false))) := by
  have hfiles := JR.all_outputs_on_disk_iff fs action
    (JR.read_manifest_file fs.manifest).files
  rw [JR.action_has_successful_outputs_eq]
  cases hga : JR.alist_get (JR.read_manifest_file fs.manifest).actions action with
  | none => simp
  | some e =>
    by_cases hst : e.status = JR.State.succeeded.value
    · by_cases hall : JR.all_outputs_on_disk fs action
          (JR.read_manifest_file fs.manifest).files = true
      · refine ⟨?_, ?_, ?_⟩
        · simp only [if_pos hst, if_pos hall]
          exact ⟨fun _ => ⟨⟨e, rfl, hst⟩, hfiles.mp hall⟩, fun _ => trivial⟩
        · simp only [if_pos hst, if_pos hall]
          constructor
          · intro h; simp at h
          · rintro ⟨e', he', hne⟩
            injection he' with h'
            subst h'
            exact absurd hst hne
        · simp only [if_pos hst, if_pos hall]
          constructor
          · intro h; simp at h
          · rintro (h | ⟨e', he', _, f, d, hmem, hcr, hdisk⟩)
            · simp at h
            · rw [hfiles.mp hall f d hmem hcr] at hdisk
              simp at hdisk
      · refine ⟨?_, ?_, ?_⟩
        · simp only [if_pos hst, if_neg hall]
          constructor
          · intro h; simp at h
          · rintro ⟨_, hdiskall⟩
            exact absurd (hfiles.mpr hdiskall) hall
        · simp only [if_pos hst, if_neg hall]
          constructor
          · intro h; simp at h
          · rintro ⟨e', he', hne⟩
            injection he' with h'
            subst h'
            exact absurd hst hne
        · simp only [if_pos hst, if_neg hall]
          have hex : ∃ f d, (f, d) ∈ (JR.read_manifest_file fs.manifest).files ∧
              d.created_by_action = action ∧ fs.on_disk f = false := by
            have hnall : ¬ ∀ f d, (f, d) ∈ (JR.read_manifest_file fs.manifest).files →
                d.created_by_action = action → fs.on_disk f = true :=
              fun hz => hall (hfiles.mpr hz)
            push_neg at hnall
            obtain ⟨f, d, hmem, hcr, hdisk⟩ := hnall
            exact ⟨f, d, hmem, hcr, by simpa using hdisk⟩
          exact ⟨fun _ => Or.inr ⟨e, rfl, hst, hex⟩, fun _ => trivial⟩
    · refine ⟨?_, ?_, ?_⟩
      · simp only [if_neg hst]
        constructor
        · intro h; simp at h
        · rintro ⟨⟨e', he', hsucc⟩, _⟩
          injection he' with h'
          subst h'
          exact absurd hsucc hst
      · simp only [if_neg hst]
        exact ⟨fun _ => ⟨e, rfl, hst⟩, fun _ => trivial⟩
      · simp only [if_neg hst]
        constructor
        · intro h; simp at h
        · rintro (h | ⟨e', he', hsucc, _⟩)
          · simp at h
          · injection he' with h'
            subst h'
            exact absurd hsucc hst

/-- C7: every environment variable whose name is not in
`SAFE_ENVIRONMENT_VARIABLES` has its value replaced by `xxxx-REDACTED-xxxx`
in the redacted metadata, safelisted variables keep their values, and two
metadata blobs that differ only in the values of non-safelisted variables
redact to identical metadata. -/
theorem redact_environment_variables_safelist
    (cm cm₁ cm₂ : JR.ContainerMetadata) :
    (∀ k v, (k, v) ∈ cm.env →
      (JR.SAFE_ENVIRONMENT_VARIABLES.contains k = true →
        (k, v) ∈ (JR.redact_environment_variables cm).env) ∧
      (JR.SAFE_ENVIRONMENT_VARIABLES.contains k = false →
        (k, "xxxx-REDACTED-xxxx") ∈ (JR.redact_environment_variables cm).env)) ∧
    (∀ k v, (k, v) ∈ (JR.redact_environment_variables cm).env →
      (JR.SAFE_ENVIRONMENT_VARIABLES.contains k = true ∧ (k, v) ∈ cm.env) ∨
      (JR.SAFE_ENVIRONMENT_VARIABLES.contains k = false ∧
        v = "xxxx-REDACTED-xxxx")) ∧
    (cm₁.image = cm₂.image → cm₁.exit_code = cm₂.exit_code →
      List.Forall₂ (fun p q : String × String =>
        p.1 = q.1 ∧ (JR.SAFE_ENVIRONMENT_VARIABLES.contains p.1 = true → p.2 = q.2))
        cm₁.env cm₂.env →
      JR.redact_environment_variables cm₁ = JR.redact_environment_variables cm₂) := by
  refine ⟨?_, ?_, ?_⟩
  · intro k v hmem
    constructor
    · intro hsafe
      rw [JR.redact_environment_variables_eq_map, List.mem_map]
      refine ⟨(k, v), hmem, ?_⟩
      unfold JR.redact_entry
      exact if_pos hsafe
    · intro hnosafe
      rw [JR.redact_environment_variables_eq_map, List.mem_map]
      refine ⟨(k, v), hmem, ?_⟩
      unfold JR.redact_entry
      exact if_neg (by rw [hnosafe]; exact Bool.false_ne_true)
  · intro k v hmem
    rw [JR.redact_environment_variables_eq_map, List.mem_map] at hmem
    obtain ⟨⟨k₀, v₀⟩, hmem₀, heq⟩ := hmem
    unfold JR.redact_entry at heq
    by_cases hsafe : JR.SAFE_ENVIRONMENT_VARIABLES.contains k₀ = true
    · rw [if_pos hsafe] at heq
      cases heq
      exact Or.inl ⟨hsafe, hmem₀⟩
    · rw [if_neg hsafe] at heq
      cases heq
      exact Or.inr ⟨Bool.not_eq_true _ |>.mp hsafe, rfl⟩
  · intro himg hexit henv
    have henvs := JR.redact_map_congr cm₁.env cm₂.env henv
    unfold JR.redact_environment_variables
    rw [himg, hexit]
    simp only [JR.ContainerMetadata.mk.injEq, true_and]
    exact henvs

/-- Witness for C7: two concrete metadata blobs differing only in the value of
the non-safelisted `DATABASE_URL` variable redact identically. -/
theorem redact_environment_variables_safelist_witness :
    JR.redact_environment_variables
      ⟨"img", 0, [("PATH", "/usr/bin"), ("DATABASE_URL", "s1")]⟩ =
    JR.redact_environment_variables
      ⟨"img", 0, [("PATH", "/usr/bin"), ("DATABASE_URL", "s2")]⟩ :=
  (redact_environment_variables_safelist ⟨"img", 0, []⟩
      ⟨"img", 0, [("PATH", "/usr/bin"), ("DATABASE_URL", "s1")]⟩
      ⟨"img", 0, [("PATH", "/usr/bin"), ("DATABASE_URL", "s2")]⟩).2.2 rfl rfl
    (List.Forall₂.cons ⟨rfl, fun _ => rfl⟩
      (List.Forall₂.cons ⟨rfl, fun h => absurd h (by decide)⟩ List.Forall₂.nil))
